import Mathlib

/-!
Verification of the firmware sideload (DFU) transfer engine of `note-mcp`
(`src/utils/dfu.go`, function `LoadBinaryToNotecardWithProgressAndLogger`,
lines 188-521), as a shallow embedding.

Modelling conventions:
* The device is an oracle `Oracle : Nat → Except TxError Resp`; the n-th
  device interaction (a `ctx.Transaction` call or a `ctx.SendBytes` call, in
  program order) receives the oracle's n-th reply.  For `SendBytes` only the
  error/success of the reply is consulted.
* Response maps (`map[string]interface{}`) are modelled by `Resp`, holding
  only the fields the function reads (`length`, `compression`, `pending`),
  each an optional dynamically-typed `JVal` (float64 / int / string / bool),
  so the source's defensive type-switch parsing is reproduced exactly.
* Errors are modelled by `TxError`: abstract flags recording the outcome of
  the classifications the source applies (`note.ErrorContains(err, ErrCardIo
  / ErrDFUNotReady / ErrDFUInProgress)` and the three `strings.Contains`
  substring tests on the error text).
* Observable actions (transactions issued, raw byte writes, sleeps, the pure
  COBS encoding step) are recorded in a trace of `Ev` events.
* `time.Sleep` is recorded as an event; wall-clock duration is not modelled.
* Logging, progress callbacks and `fmt.Fprintf` output never gate logic in
  the source and are omitted; likewise the filename basename cleanup and the
  MD5/CRC metadata values (computed but never branched on).
* The vendor COBS encoder `notecard.CobsEncode` is out of scope (vendor SDK);
  it is an abstract parameter `enc : Nat → Nat → Option Nat` giving the
  encoded length of the chunk at (offset, length), `none` meaning the
  encoder reported an error (source line 329).
* The two unbounded `for` loops (the per-chunk pending sub-poll) are given
  explicit fuel; exhausting fuel yields the distinguished outcome
  `RunRes.fuelOut`, meaning "still looping after that many iterations".
* Go's `bin[offset : offset+thisLen]` slice with a negative `thisLen` is a
  runtime panic, modelled by the distinguished outcome `RunRes.panicked`
  (distinct from every returned-error outcome).
-/

namespace DfuSpec

/-- A dynamically typed JSON field value as delivered by the Go transport
(`interface{}`): a float64 carrying an integral value, an int, a string, or
a bool.  These are the four shapes the source's type switches distinguish. -/
inductive JVal where
  | jfloat (n : Int)
  | jint (n : Int)
  | jstr (s : String)
  | jbool (b : Bool)
deriving Repr, DecidableEq

/-- Accumulate decimal digits, failing on any non-digit
(the digit part of Go's `strconv.Atoi`). -/
def parseDigitsAux : List Char → Nat → Option Nat
  | [], acc => some acc
  | c :: cs, acc =>
    if c.isDigit then parseDigitsAux cs (10 * acc + (c.toNat - 48)) else none

/-- Go's `strconv.Atoi`: an optional sign followed by one or more decimal
digits and nothing else.  (Overflow of 64-bit int is not modelled; the
values involved are small.) -/
def atoi (s : String) : Option Int :=
  match s.toList with
  | [] => none
  | '-' :: cs =>
    match cs with
    | [] => none
    | _ => (parseDigitsAux cs 0).map fun n => -(n : Int)
  | '+' :: cs =>
    match cs with
    | [] => none
    | _ => (parseDigitsAux cs 0).map fun n => (n : Int)
  | cs => (parseDigitsAux cs 0).map fun n => (n : Int)

/-- Defensive parse of the `length` field of the `dfu.put` initiate response
(src/utils/dfu.go lines 254-265), starting from `chunkLen = 0`: accept a
float64 (truncated to int), an int, or — via `fmt.Sprintf("%v", ...)` and
`strconv.Atoi` — a non-empty numeric string; anything else leaves the value
at 0.  A bool prints as "true"/"false", which `Atoi` rejects. -/
def parseLenField : Option JVal → Int
  | none => 0
  | some (.jfloat n) => n
  | some (.jint n) => n
  | some (.jstr s) =>
    if s = "" then 0 else
      match atoi s with
      | some n => n
      | none => 0
  | some (.jbool _) => 0

/-- Negotiated chunk size (src/utils/dfu.go lines 273-275): the parsed
`length` field, with only an absent-or-zero value replaced by the 1024
default.  A negative parsed value passes through unchanged. -/
def negotiatedChunkLen (v : Option JVal) : Int :=
  let c := parseLenField v
  if c = 0 then 1024 else c

/-- Defensive parse of the `length` field of the `card.binary` verification
response (src/utils/dfu.go lines 357-366), starting from
`receivedLength = 0`: a float64 directly, otherwise `fmt.Sprintf("%v", ...)`
plus `strconv.Atoi` — which on an int value prints its decimal form and
parses back to the same integer, on a string parses it if numeric, and on a
bool fails, leaving 0. -/
def parseVerifyLen : Option JVal → Int
  | none => 0
  | some (.jfloat n) => n
  | some (.jint n) => n
  | some (.jstr s) =>
    if s = "" then 0 else
      match atoi s with
      | some n => n
      | none => 0
  | some (.jbool _) => 0

/-- Parse of the `compression` field of the initiate response
(src/utils/dfu.go lines 267-271): taken only when it is a string; advisory
only — the snappy branch of the chunk loop (lines 320-323) is a no-op and
payloads are sent uncompressed regardless. -/
def parseCompressionField : Option JVal → String
  | some (.jstr s) => s
  | _ => ""

/-- A device response map, restricted to the fields
`LoadBinaryToNotecardWithProgressAndLogger` reads. -/
structure Resp where
  length : Option JVal := none
  compression : Option JVal := none
  pending : Option JVal := none
deriving Repr, DecidableEq

/-- An error returned by a transport call, abstracted to the outcomes of the
exact classifications the source applies to it:
`note.ErrorContains(err, note.ErrCardIo)` (`cardIoFlag`),
`note.ErrorContains(err, note.ErrDFUNotReady)` (`notReadyFlag`),
`note.ErrorContains(err, note.ErrDFUInProgress)` (`inProgressFlag`), and the
three substring tests on `err.Error()`: "firmware update is in progress"
(`msgInProgress`), "connection" (`msgConnection`), "timeout"
(`msgTimeout`). -/
structure TxError where
  cardIoFlag : Bool := false
  notReadyFlag : Bool := false
  inProgressFlag : Bool := false
  msgInProgress : Bool := false
  msgConnection : Bool := false
  msgTimeout : Bool := false
deriving Repr, DecidableEq

/-- The classification used by the pending sub-poll (src/utils/dfu.go lines
414-416): DFU not ready, DFU in progress, or the literal substring
"firmware update is in progress". -/
def dfuBusy (e : TxError) : Bool :=
  e.notReadyFlag || e.inProgressFlag || e.msgInProgress

/-- The connection-style classification used by the completion poll
(src/utils/dfu.go lines 483-485): card I/O error, or error text containing
"connection" or "timeout". -/
def connStyle (e : TxError) : Bool :=
  e.cardIoFlag || e.msgConnection || e.msgTimeout

/-- One device reply: either an error or a response map. -/
abbrev Reply := Except TxError Resp

/-- The device, as an oracle giving the reply to the n-th device interaction
(counting both `Transaction` and `SendBytes` calls in program order). -/
abbrev Oracle := Nat → Reply

/-- Observable events of one transfer, in program order. -/
inductive Ev where
  /-- The initiating `dfu.put` transaction with name and metadata body
  (src/utils/dfu.go lines 245-249). -/
  | txInitiate
  /-- The pure COBS encoding of the chunk at (offset, length)
  (src/utils/dfu.go line 328). -/
  | cobsEncode (off len : Nat)
  /-- The `card.binary.put` transaction announcing `cobs = encLen`
  (src/utils/dfu.go lines 334-339). -/
  | txBinaryPut (encLen : Nat)
  /-- The raw write of n bytes (the COBS frame plus trailing delimiter) via
  `ctx.SendBytes` (src/utils/dfu.go lines 345-346). -/
  | sendRaw (n : Nat)
  /-- The `card.binary` verification transaction
  (src/utils/dfu.go line 352). -/
  | txVerify
  /-- A `dfu.put` chunk transaction carrying `offset`, `length` and either
  `binary:true` or an inline payload (src/utils/dfu.go lines 312-316,
  373-375, 392). -/
  | txChunk (off len : Nat) (binary : Bool)
  /-- A bare `dfu.put` status transaction of the pending sub-poll
  (src/utils/dfu.go line 412). -/
  | txStatus
  /-- A `dfu.status` transaction of the completion poll
  (src/utils/dfu.go lines 462-465). -/
  | txDfuStatus
  /-- A `time.Sleep` of the given number of milliseconds. -/
  | sleep (ms : Nat)
deriving Repr, DecidableEq

/-- The distinct error returns of
`LoadBinaryToNotecardWithProgressAndLogger`. -/
inductive Fail where
  /-- "failed to create metadata body" (line 230). -/
  | metadataBodyFailed
  /-- "failed to initiate DFU" (line 251). -/
  | initiateFailed (e : TxError)
  /-- "failed to COBS encode payload" (line 330). -/
  | cobsEncodeFailed
  /-- "failed to send card.binary.put" (line 341). -/
  | binaryPutFailed (e : TxError)
  /-- "failed to send COBS payload" (line 348). -/
  | sendCobsFailed (e : TxError)
  /-- "failed to verify binary transfer" (line 354). -/
  | verifyFailed (e : TxError)
  /-- "notecard payload verification failed (%d sent, %d received)"
  (line 369): names the sent (original, pre-encoding) and received
  lengths. -/
  | verifyMismatch (sent : Nat) (received : Int)
  /-- "failed to send chunk at offset %d after %d retries" (line 399):
  names the chunk's offset and the retry count. -/
  | chunkSendFailed (off retries : Nat) (e : TxError)
  /-- "error checking DFU status" (line 421). -/
  | dfuStatusError (e : TxError)
deriving Repr, DecidableEq

/-- Outcome of a (fuelled) run: normal return of nil, a returned error, fuel
exhaustion of an unbounded source loop, or a Go runtime panic. -/
inductive RunRes where
  | ok
  | failure (f : Fail)
  | fuelOut
  | panicked
deriving Repr, DecidableEq

/-- The chunk-send retry loop (src/utils/dfu.go lines 383-402), recursing on
the number of attempts left (initially `maxR = maxRetries = 3`, so the
0-attempts branch is unreachable from the entry point).  The 0-based Go
index is `retry = maxR - attemptsLeft`; `retry > 0` puts the 1000 ms sleep
before the attempt, and a card-I/O-classified error with
`retry < maxRetries-1` (i.e. further attempts remain) continues; any other
error, or the final attempt's card I/O error, returns the fatal
`chunkSendFailed` error naming the offset and `maxRetries`. -/
def chunkRetry (o : Oracle) (off len : Nat) (binary : Bool) (maxR : Nat) :
    Nat → Nat → List Ev × Nat × Except Fail Resp
  | 0, k => ([], k, .error (.chunkSendFailed off maxR {}))
  | attemptsLeft + 1, k =>
    let pre : List Ev := if attemptsLeft + 1 < maxR then [.sleep 1000] else []
    match o k with
    | .ok rsp => (pre ++ [.txChunk off len binary], k + 1, .ok rsp)
    | .error e =>
      if e.cardIoFlag && decide (0 < attemptsLeft) then
        let rest := chunkRetry o off len binary maxR attemptsLeft (k + 1)
        (pre ++ .txChunk off len binary :: rest.1, rest.2)
      else
        (pre ++ [.txChunk off len binary], k + 1,
          .error (.chunkSendFailed off maxR e))

/-- The pending sub-poll (src/utils/dfu.go lines 411-430), fuelled: issue a
bare `dfu.put` status transaction; on an error, break out (an acceptable
terminal state) only when it is `dfuBusy`-classified and `remAfter = 0`
(`lenRemaining`, already decremented at lines 404-406), otherwise return the
fatal `dfuStatusError`; on a response whose `pending` field is the boolean
`false`, break out; on any other response sleep 750 ms and poll again. -/
def subPollAux (o : Oracle) (remAfter : Nat) : Nat → Nat → List Ev × Nat × RunRes
  | 0, k => ([], k, .fuelOut)
  | fuel + 1, k =>
    match o k with
    | .error e =>
      if dfuBusy e && decide (remAfter = 0) then ([.txStatus], k + 1, .ok)
      else ([.txStatus], k + 1, .failure (.dfuStatusError e))
    | .ok rsp =>
      if rsp.pending = some (.jbool false) then ([.txStatus], k + 1, .ok)
      else
        let rest := subPollAux o remAfter fuel (k + 1)
        (.txStatus :: .sleep 750 :: rest.1, rest.2)

/-- The pending sub-poll terminates (for some amount of fuel the loop is no
longer running). -/
def subPollTerminates (o : Oracle) (remAfter k : Nat) : Prop :=
  ∃ fuel, (subPollAux o remAfter fuel k).2.2 ≠ RunRes.fuelOut

/-- A reply on which one sub-poll iteration exits the loop: any error
(either the acceptable break or the fatal return), or a response whose
`pending` field is the boolean `false`. -/
def termReply : Reply → Prop
  | .error _ => True
  | .ok rsp => rsp.pending = some (.jbool false)

/-- The tail of one chunk iteration after any binary-mode sub-protocol: the
3-attempt `dfu.put` send (src/utils/dfu.go lines 383-402) followed — only
when the response's `pending` field is the boolean `true` (lines 409-432) —
by the pending sub-poll.  `remAfter` is `lenRemaining` after the updates at
lines 404-406. -/
def confirmAndPoll (o : Oracle) (off len remAfter pollFuel : Nat)
    (binary : Bool) (k : Nat) : List Ev × Nat × RunRes :=
  match chunkRetry o off len binary 3 3 k with
  | (revs, k1, .error f) => (revs, k1, .failure f)
  | (revs, k1, .ok rsp) =>
    if rsp.pending = some (.jbool true) then
      let rest := subPollAux o remAfter pollFuel k1
      (revs ++ rest.1, rest.2)
    else (revs, k1, .ok)

/-- One full chunk iteration body (src/utils/dfu.go lines 311-432), given
the chunk's (offset, length).  In binary mode (`binaryMax > 0`): COBS-encode
the payload (abstract encoder `enc`; `none` is the encoder-error return of
line 330), announce `card.binary.put` with the encoded length, raw-write the
encoded bytes plus the trailing delimiter, issue the `card.binary`
verification and compare the parsed device-reported length against the
chunk's original pre-encoding length `len`, failing with `verifyMismatch` on
inequality; only then proceed to the `dfu.put` confirmation (with
`binary:true`).  Each binary-mode step's error aborts immediately.  In
non-binary mode the payload travels inline in the single `dfu.put`. -/
def processChunk (o : Oracle) (enc : Nat → Nat → Option Nat) (binaryMax : Nat)
    (off len remAfter pollFuel k : Nat) : List Ev × Nat × RunRes :=
  if 0 < binaryMax then
    match enc off len with
    | none => ([.cobsEncode off len], k, .failure .cobsEncodeFailed)
    | some encLen =>
      match o k with
      | .error e =>
        ([.cobsEncode off len, .txBinaryPut encLen], k + 1,
          .failure (.binaryPutFailed e))
      | .ok _ =>
        match o (k + 1) with
        | .error e =>
          ([.cobsEncode off len, .txBinaryPut encLen, .sendRaw (encLen + 1)],
            k + 2, .failure (.sendCobsFailed e))
        | .ok _ =>
          match o (k + 2) with
          | .error e =>
            ([.cobsEncode off len, .txBinaryPut encLen, .sendRaw (encLen + 1),
              .txVerify], k + 3, .failure (.verifyFailed e))
          | .ok vr =>
            let received := parseVerifyLen vr.length
            if received = (len : Int) then
              let rest := confirmAndPoll o off len remAfter pollFuel true (k + 3)
              ([.cobsEncode off len, .txBinaryPut encLen, .sendRaw (encLen + 1),
                .txVerify] ++ rest.1, rest.2)
            else
              ([.cobsEncode off len, .txBinaryPut encLen, .sendRaw (encLen + 1),
                .txVerify], k + 3, .failure (.verifyMismatch len received))
  else confirmAndPoll o off len remAfter pollFuel false k

/-- The chunk loop (src/utils/dfu.go lines 287-433), fuelled on the number
of iterations, producing the per-chunk blocks: each block is the chunk's
`(offset, thisLen)` pair paired with every event of its iteration (binary
sub-protocol, retried `dfu.put`, pending sub-poll).  `thisLen` is
`lenRemaining` capped at `chunkLen` (lines 290-293, over `int`), and a
negative `thisLen` makes `bin[offset : offset+thisLen]` (line 296) a
runtime panic.  On success of an iteration, `lenRemaining -= thisLen` and
`offset += thisLen` (lines 404-406) and the loop continues. -/
def chunkLoopAux (o : Oracle) (enc : Nat → Nat → Option Nat) (binaryMax : Nat)
    (chunkLen : Int) (pollFuel : Nat) :
    Nat → Nat → Nat → Nat → List ((Nat × Nat) × List Ev) × Nat × RunRes
  | 0, _, _, k => ([], k, .fuelOut)
  | fuel + 1, off, rem, k =>
    if rem = 0 then ([], k, .ok)
    else
      let thisLenI : Int := if (rem : Int) > chunkLen then chunkLen else (rem : Int)
      if thisLenI < 0 then ([], k, .panicked)
      else
        let thisLen := thisLenI.toNat
        match processChunk o enc binaryMax off thisLen (rem - thisLen) pollFuel k with
        | (evs, k1, .ok) =>
          let rest := chunkLoopAux o enc binaryMax chunkLen pollFuel fuel
            (off + thisLen) (rem - thisLen) k1
          (((off, thisLen), evs) :: rest.1, rest.2)
        | (evs, k1, r) => ([((off, thisLen), evs)], k1, r)

/-- The `(offset, lenRemaining)` pair at each chunk-loop iteration boundary
(the values of the two mutable counters of src/utils/dfu.go lines 283-284 as
updated by lines 404-406), including the boundary on which the loop exits. -/
def loopStates (chunkLen : Int) : Nat → Nat → Nat → List (Nat × Nat)
  | 0, off, rem => [(off, rem)]
  | fuel + 1, off, rem =>
    if rem = 0 then [(off, rem)]
    else
      let thisLenI : Int := if (rem : Int) > chunkLen then chunkLen else (rem : Int)
      if thisLenI < 0 then [(off, rem)]
      else (off, rem) ::
        loopStates chunkLen fuel (off + thisLenI.toNat) (rem - thisLenI.toNat)

/-- The pure `(offset, thisLen)` chunk sequence of the loop at
src/utils/dfu.go lines 287-296 / 404-406 for a `Nat` chunk size:
`thisLen = min rem chunkLen`, advancing until `rem = 0`.  Fuelled; fuel
`rem` suffices whenever `0 < chunkLen`. -/
def chunkPairsAux (chunkLen : Nat) : Nat → Nat → Nat → List (Nat × Nat)
  | 0, _, _ => []
  | fuel + 1, off, rem =>
    if rem = 0 then []
    else
      let thisLen := min rem chunkLen
      (off, thisLen) :: chunkPairsAux chunkLen fuel (off + thisLen) (rem - thisLen)

/-- The chunk sequence for an image of `totalLen` bytes. -/
def chunkPairs (chunkLen totalLen : Nat) : List (Nat × Nat) :=
  chunkPairsAux chunkLen totalLen 0 totalLen

/-- `isPartition start stop ps`: the `(offset, len)` pairs `ps` tile the
byte range `[start, stop)` exactly — offsets begin at `start`, consecutive
pairs are adjacent (no gaps, no overlaps), every length is positive, and the
final offset-plus-length reaches `stop` (for an empty list,
`start = stop`). -/
def isPartition : Nat → Nat → List (Nat × Nat) → Prop
  | start, stop, [] => start = stop
  | start, stop, (off, len) :: rest =>
    off = start ∧ 0 < len ∧ isPartition (off + len) stop rest

/-- `adjacentFrom start ps`: offsets begin at `start` and each pair begins
exactly where the previous one ended (adjacency without demanding that the
tiling be complete). -/
def adjacentFrom : Nat → List (Nat × Nat) → Prop
  | _, [] => True
  | start, (off, len) :: rest => off = start ∧ adjacentFrom (off + len) rest

/-- The completion poll (src/utils/dfu.go lines 459-513), recursing on the
iterations left (60 at entry) while carrying the 0-based Go loop index `i`
and the consecutive-connection-loss counter: poll `dfu.status`; a successful
reply resets the loss counter and, when its `pending` field is the boolean
`false`, declares completion; a `connStyle` error increments the loss
counter and declares completion when the counter reaches 3 or `i > 30`; any
other error changes nothing; every non-declaring iteration sleeps 1000 ms.
Returns (events, declared-completion flag, next oracle index); no path
returns an error. -/
def completionPollAux (o : Oracle) : Nat → Nat → Nat → Nat → List Ev × Bool × Nat
  | 0, _, _, k => ([], false, k)
  | itersLeft + 1, i, loss, k =>
    match o k with
    | .ok rsp =>
      if rsp.pending = some (.jbool false) then ([.txDfuStatus], true, k + 1)
      else
        let rest := completionPollAux o itersLeft (i + 1) 0 (k + 1)
        (.txDfuStatus :: .sleep 1000 :: rest.1, rest.2)
    | .error e =>
      if connStyle e then
        if decide (3 ≤ loss + 1) || decide (30 < i) then ([.txDfuStatus], true, k + 1)
        else
          let rest := completionPollAux o itersLeft (i + 1) (loss + 1) (k + 1)
          (.txDfuStatus :: .sleep 1000 :: rest.1, rest.2)
      else
        let rest := completionPollAux o itersLeft (i + 1) loss (k + 1)
        (.txDfuStatus :: .sleep 1000 :: rest.1, rest.2)

/-- The completion poll from its entry point: 60 iterations, index 0, loss
counter 0, next oracle index `k`. -/
def completionPoll (o : Oracle) (k : Nat) : List Ev × Bool × Nat :=
  completionPollAux o 60 0 0 k

/-- Elapsed seconds of the post-transfer summary (src/utils/dfu.go line
436): `(now - began) + 1`, the divisor of the reported throughput
`totalLen / elapsedSecs`. -/
def elapsedSecs (began now : Int) : Int :=
  (now - began) + 1

/-- `LoadBinaryToNotecardWithProgressAndLogger` end to end (src/utils/dfu.go
lines 188-521): serialize the metadata (`bodyOk` abstracts the vendor
`note.ObjectToBody`, line 228), issue the initiating `dfu.put`, negotiate
the chunk size from its response (defaulting 0/absent to 1024), run the
chunk loop, and — only when the upload type is Notecard firmware — run the
completion poll, whose outcome never affects the returned value: after the
transfer loop succeeds the function always returns nil. -/
def loadBinary (o : Oracle) (enc : Nat → Nat → Option Nat) (bodyOk : Bool)
    (binaryMax totalLen : Nat) (isNotecardFw : Bool) (fuel pollFuel : Nat) :
    List Ev × RunRes :=
  if bodyOk then
    match o 0 with
    | .error e => ([.txInitiate], .failure (.initiateFailed e))
    | .ok rsp =>
      let chunkLen := negotiatedChunkLen rsp.length
      match chunkLoopAux o enc binaryMax chunkLen pollFuel fuel 0 totalLen 1 with
      | (blocks, k1, .ok) =>
        let evs := Ev.txInitiate :: (blocks.map fun b => b.2).flatten
        if isNotecardFw then
          let rest := completionPoll o k1
          (evs ++ rest.1, .ok)
        else (evs, .ok)
      | (blocks, _, r) => (Ev.txInitiate :: (blocks.map fun b => b.2).flatten, r)
  else ([], .failure .metadataBodyFailed)

/-- Is this event a `dfu.put` chunk transaction? -/
def Ev.isTxChunk : Ev → Bool
  | .txChunk _ _ _ => true
  | _ => false

/-- Is this event a sleep? -/
def Ev.isSleep : Ev → Bool
  | .sleep _ => true
  | _ => false

/-- Is this event a bare `dfu.put` status transaction? -/
def Ev.isTxStatus : Ev → Bool
  | .txStatus => true
  | _ => false

/-- Is this event a `dfu.status` completion-poll transaction? -/
def Ev.isTxDfuStatus : Ev → Bool
  | .txDfuStatus => true
  | _ => false

/-- Is this event the COBS encoding step? -/
def Ev.isCobsEncode : Ev → Bool
  | .cobsEncode _ _ => true
  | _ => false

/-- Is this event a `card.binary.put` transaction? -/
def Ev.isTxBinaryPut : Ev → Bool
  | .txBinaryPut _ => true
  | _ => false

/-- Is this event a raw byte write? -/
def Ev.isSendRaw : Ev → Bool
  | .sendRaw _ => true
  | _ => false

/-- Is this event a `card.binary` verification transaction? -/
def Ev.isTxVerify : Ev → Bool
  | .txVerify => true
  | _ => false

/-- The `(offset, length, binary)` arguments of a chunk transaction event. -/
def Ev.txChunkArgs : Ev → Option (Nat × Nat × Bool)
  | .txChunk off len b => some (off, len, b)
  | _ => none

/-- Abstract COBS-encoder stub for concrete runs: every chunk encodes with
one byte of overhead. -/
def encStub : Nat → Nat → Option Nat := fun _ len => some (len + 1)

/-- A device that answers every interaction with an empty successful
response. -/
def oracleOkEmpty : Oracle := fun _ => .ok {}

/-- An error classified as a card I/O error. -/
def errIoStub : TxError := { cardIoFlag := true }

/-- An error whose text contains "connection" (a connection-style error that
is not a card I/O error). -/
def errConn : TxError := { msgConnection := true }

/-- An error classified as DFU-in-progress. -/
def errBusy : TxError := { inProgressFlag := true }

/-- An error matching none of the source's classifications. -/
def errPlain : TxError := {}

/-- A transport stub that fails with a card I/O error exactly twice, then
succeeds. -/
def oracleIoTwice : Oracle := fun k => if k < 2 then .error errIoStub else .ok {}

/-- A transport stub that always fails with a card I/O error. -/
def oracleIoAlways : Oracle := fun _ => .error errIoStub

/-- A completion-poll stub that fails every transaction with a
connection-style error. -/
def oracleConnLoss : Oracle := fun _ => .error errConn

/-- A stub whose initiate reply succeeds and whose every later transaction
fails with a connection-style error (a device that dropped its link). -/
def oracleInitThenConnLoss : Oracle := fun k =>
  if k = 0 then .ok {} else .error errConn

/-- A response reporting `pending:true`. -/
def pendTrueResp : Resp := { pending := some (.jbool true) }

/-- A response reporting `pending:false`. -/
def pendFalseResp : Resp := { pending := some (.jbool false) }

/-- A stub whose chunk reply and first two status polls report
`pending:true` and whose third status poll reports `pending:false`. -/
def oraclePendTTF : Oracle := fun k =>
  if k < 3 then .ok pendTrueResp else .ok pendFalseResp

/-- A device that reports `pending:true` on every poll. -/
def oraclePendAlwaysTrue : Oracle := fun _ => .ok pendTrueResp

/-- A binary-capable chunk scenario: the `card.binary.put`, raw write and
verification (reporting length 4) succeed, the first `dfu.put` confirmation
fails with a card I/O error, and the retried confirmation succeeds. -/
def oracleBinRetry : Oracle := fun k =>
  if k = 2 then .ok { length := some (.jfloat 4) }
  else if k = 3 then .error errIoStub
  else .ok {}

/-- A binary-capable chunk scenario whose verification reports length 5
(a corrupted or truncated write) for a 7-byte chunk. -/
def oracleBinMismatch : Oracle := fun k =>
  if k = 2 then .ok { length := some (.jfloat 5) } else .ok {}

/-- A device that negotiates chunk size 1024 and answers everything else
with a plain success. -/
def oracleLen1024 : Oracle := fun _ => .ok { length := some (.jfloat 1024) }

/-- A device whose initiate response carries the numeric string "-5" in its
`length` field and otherwise succeeds. -/
def oracleLenNegStr : Oracle := fun _ => .ok { length := some (.jstr "-5") }

/-- Membership in the conditional backoff-sleep list forces the event to be
the 1000 ms sleep. -/
theorem mem_backoff {e : Ev} (c : Prop) [Decidable c]
    (he : e ∈ (if c then [Ev.sleep 1000] else [])) : e = Ev.sleep 1000 := by
  split at he <;> simp_all

/-- The conditional backoff-sleep list contains no chunk transaction. -/
theorem countP_backoff (c : Prop) [Decidable c] :
    List.countP Ev.isTxChunk (if c then [Ev.sleep 1000] else []) = 0 := by
  split <;> rfl

/-- Every event of the chunk-send retry loop is either the 1000 ms backoff
sleep or the chunk's own `dfu.put` transaction: the loop re-issues only the
`dfu.put` request, for this chunk's offset and length. -/
theorem chunkRetry_mem (o : Oracle) (off len : Nat) (bin : Bool) (maxR : Nat) :
    ∀ aL k, ∀ e ∈ (chunkRetry o off len bin maxR aL k).1,
      e = Ev.sleep 1000 ∨ e = Ev.txChunk off len bin := by
  intro aL
  induction aL with
  | zero => intro k e he; simp [chunkRetry] at he
  | succ n ih =>
    intro k e he
    rcases ho : o k with e0 | rsp <;> simp only [chunkRetry, ho] at he
    · by_cases hc : (e0.cardIoFlag && decide (0 < n)) = true
      · rw [if_pos hc] at he
        rcases List.mem_append.mp he with h1 | h1
        · exact Or.inl (mem_backoff _ h1)
        · rcases List.mem_cons.mp h1 with h2 | h2
          · exact Or.inr h2
          · exact ih (k + 1) e h2
      · rw [if_neg hc] at he
        rcases List.mem_append.mp he with h1 | h1
        · exact Or.inl (mem_backoff _ h1)
        · simp at h1; exact Or.inr h1
    · rcases List.mem_append.mp he with h1 | h1
      · exact Or.inl (mem_backoff _ h1)
      · simp at h1; exact Or.inr h1

/-- The retry loop issues at most as many `dfu.put` transactions as it has
attempts left (3 from its entry point). -/
theorem chunkRetry_count_le (o : Oracle) (off len : Nat) (bin : Bool) (maxR : Nat) :
    ∀ aL k, ((chunkRetry o off len bin maxR aL k).1.countP Ev.isTxChunk) ≤ aL := by
  intro aL
  induction aL with
  | zero => intro k; simp [chunkRetry]
  | succ n ih =>
    intro k
    rcases ho : o k with e0 | rsp <;> simp only [chunkRetry, ho]
    · by_cases hc : (e0.cardIoFlag && decide (0 < n)) = true
      · rw [if_pos hc]
        have := ih (k + 1)
        simp only [List.countP_append, List.countP_cons, countP_backoff]
        simp only [Ev.isTxChunk, if_true]
        omega
      · rw [if_neg hc]
        simp only [List.countP_append, List.countP_cons, List.countP_nil,
          countP_backoff]
        simp only [Ev.isTxChunk, if_true]
        omega
    · simp only [List.countP_append, List.countP_cons, List.countP_nil,
        countP_backoff]
      simp only [Ev.isTxChunk, if_true]
      omega

/-- The retry loop with at least one attempt left always issues this chunk's
`dfu.put` transaction at least once. -/
theorem chunkRetry_tx_mem (o : Oracle) (off len : Nat) (bin : Bool) (maxR : Nat)
    (n k : Nat) :
    Ev.txChunk off len bin ∈ (chunkRetry o off len bin maxR (n + 1) k).1 := by
  rcases ho : o k with e0 | rsp <;> simp only [chunkRetry, ho]
  · by_cases hc : (e0.cardIoFlag && decide (0 < n)) = true
    · rw [if_pos hc]; simp
    · rw [if_neg hc]; simp
  · simp

/-- Every event of the pending sub-poll is a bare `dfu.put` status
transaction or the 750 ms sleep. -/
theorem subPollAux_mem (o : Oracle) (remAfter : Nat) :
    ∀ fuel k, ∀ e ∈ (subPollAux o remAfter fuel k).1,
      e = Ev.txStatus ∨ e = Ev.sleep 750 := by
  intro fuel
  induction fuel with
  | zero => intro k e he; simp [subPollAux] at he
  | succ n ih =>
    intro k e he
    rcases ho : o k with e0 | rsp <;> simp only [subPollAux, ho] at he
    · split at he <;> simp_all
    · split at he
      · simp_all
      · rcases List.mem_cons.mp he with h1 | h1
        · tauto
        · rcases List.mem_cons.mp h1 with h2 | h2
          · tauto
          · exact ih (k + 1) e h2

/-- Against a device that answers every status poll with `pending:true`, the
pending sub-poll is still running after any amount of fuel. -/
theorem subPoll_diverges_on_always_pending :
    ∀ fuel k, (subPollAux oraclePendAlwaysTrue 0 fuel k).2.2 = RunRes.fuelOut := by
  intro fuel
  induction fuel with
  | zero => intro k; rfl
  | succ n ih =>
    intro k
    simp only [subPollAux, oraclePendAlwaysTrue]
    rw [if_neg (by decide : ¬pendTrueResp.pending = some (.jbool false))]
    exact ih (k + 1)

/-- If the sub-poll halts within some fuel, some status reply is a loop
terminator (an error, or a response reporting the boolean `pending:false`). -/
theorem subPollAux_term_fwd (o : Oracle) (rem : Nat) :
    ∀ fuel k, (subPollAux o rem fuel k).2.2 ≠ RunRes.fuelOut →
      ∃ n, termReply (o (k + n)) := by
  intro fuel
  induction fuel with
  | zero => intro k h; exact absurd rfl h
  | succ m ih =>
    intro k h
    rcases ho : o k with e0 | rsp
    · exact ⟨0, by rw [Nat.add_zero, ho]; trivial⟩
    · by_cases hp : rsp.pending = some (.jbool false)
      · exact ⟨0, by rw [Nat.add_zero, ho]; exact hp⟩
      · simp only [subPollAux, ho] at h
        rw [if_neg hp] at h
        obtain ⟨n, hn⟩ := ih (k + 1) h
        exact ⟨n + 1, by rw [show k + (n + 1) = k + 1 + n by omega]; exact hn⟩

/-- If the n-th status reply is a loop terminator, fuel n+1 suffices for the
sub-poll to halt. -/
theorem subPollAux_term_back (o : Oracle) (rem : Nat) :
    ∀ n k, termReply (o (k + n)) →
      (subPollAux o rem (n + 1) k).2.2 ≠ RunRes.fuelOut := by
  intro n
  induction n with
  | zero =>
    intro k h
    rw [Nat.add_zero] at h
    rcases ho : o k with e0 | rsp
    · simp only [subPollAux, ho]
      split <;> simp
    · rw [ho] at h
      have h' : rsp.pending = some (.jbool false) := h
      simp only [subPollAux, ho]
      rw [if_pos h']
      simp
  | succ m ih =>
    intro k h
    rcases ho : o k with e0 | rsp
    · simp only [subPollAux, ho]; split <;> simp
    · by_cases hp : rsp.pending = some (.jbool false)
      · simp only [subPollAux, ho]; rw [if_pos hp]; simp
      · simp only [subPollAux, ho]; rw [if_neg hp]
        exact ih (k + 1) (by rw [show k + 1 + m = k + (m + 1) by omega]; exact h)

/-- The chunk sequence computed with fuel at least `rem` tiles
`[off, off + rem)` exactly, whenever the chunk size is positive. -/
theorem chunkPairsAux_partition (C : Nat) (hC : 0 < C) :
    ∀ fuel off rem, rem ≤ fuel →
      isPartition off (off + rem) (chunkPairsAux C fuel off rem) := by
  intro fuel
  induction fuel with
  | zero =>
    intro off rem h
    have : rem = 0 := Nat.le_zero.mp h
    subst this
    simp [chunkPairsAux, isPartition]
  | succ m ih =>
    intro off rem h
    by_cases hr : rem = 0
    · subst hr; simp [chunkPairsAux, isPartition]
    · simp only [chunkPairsAux, if_neg hr]
      refine ⟨rfl, ?_, ?_⟩
      · exact Nat.lt_min.mpr ⟨Nat.pos_of_ne_zero hr, hC⟩
      · have hmin : min rem C ≤ rem := Nat.min_le_left _ _
        have hpos : 0 < min rem C := Nat.lt_min.mpr ⟨Nat.pos_of_ne_zero hr, hC⟩
        have heq : off + min rem C + (rem - min rem C) = off + rem := by omega
        have := ih (off + min rem C) (rem - min rem C) (by omega)
        rwa [heq] at this

/-- Every offset of a partition of `[start, stop)` is at least `start`. -/
theorem isPartition_le (l : List (Nat × Nat)) :
    ∀ start stop, isPartition start stop l → ∀ p ∈ l, start ≤ p.1 := by
  induction l with
  | nil => intro start stop _ p hp; simp at hp
  | cons a rest ih =>
    intro start stop h p hp
    obtain ⟨ha, hlen, hrest⟩ := h
    rcases List.mem_cons.mp hp with h1 | h1
    · subst h1; omega
    · have := ih (a.1 + a.2) stop hrest p h1
      omega

/-- The offsets of a partition are strictly increasing. -/
theorem isPartition_pairwise (l : List (Nat × Nat)) :
    ∀ start stop, isPartition start stop l →
      l.Pairwise (fun a b => a.1 < b.1) := by
  induction l with
  | nil => intro _ _ _; exact List.Pairwise.nil
  | cons a rest ih =>
    intro start stop h
    obtain ⟨ha, hlen, hrest⟩ := h
    refine List.Pairwise.cons ?_ (ih (a.1 + a.2) stop hrest)
    intro b hb
    have := isPartition_le rest (a.1 + a.2) stop hrest b hb
    omega

/-- The per-iteration chunk length, truncated to `Nat`, never exceeds the
remaining byte count. -/
theorem thisLen_toNat_le (C : Int) (rem : Nat) :
    (if (rem : Int) > C then C else (rem : Int)).toNat ≤ rem := by
  split <;> omega

/-- With a positive chunk size and bytes remaining, the per-iteration chunk
length is positive. -/
theorem thisLen_toNat_pos (C : Int) (hC : 0 < C) (rem : Nat) (hr : rem ≠ 0) :
    0 < (if (rem : Int) > C then C else (rem : Int)).toNat := by
  split <;> omega

/-- With a positive chunk size the per-iteration chunk length is never
negative (the slice panic is unreachable). -/
theorem thisLen_nonneg (C : Int) (hC : 0 < C) (rem : Nat) :
    ¬ (if (rem : Int) > C then C else (rem : Int)) < 0 := by
  split <;> omega

/-- For a `Nat`-valued chunk size the per-iteration chunk length is exactly
`min rem C`. -/
theorem thisLen_toNat_natC (C : Nat) (rem : Nat) :
    (if (rem : Int) > (C : Int) then (C : Int) else (rem : Int)).toNat = min rem C := by
  split <;> omega

/-- The first chunk-loop boundary state is the initial `(offset,
lenRemaining)` pair. -/
theorem loopStates_head (C : Int) :
    ∀ fuel off rem, (loopStates C fuel off rem).head? = some (off, rem) := by
  intro fuel
  cases fuel with
  | zero => intro off rem; rfl
  | succ m =>
    intro off rem
    by_cases hr : rem = 0
    · simp [loopStates, hr]
    · simp only [loopStates, if_neg hr]
      by_cases hgt : (rem : Int) > C
      · simp only [if_pos hgt]; split <;> rfl
      · simp only [if_neg hgt]; split <;> rfl

/-- At every chunk-loop iteration boundary the two counters sum to the value
they started with. -/
theorem loopStates_sum (C : Int) :
    ∀ fuel off rem, ∀ s ∈ loopStates C fuel off rem, s.1 + s.2 = off + rem := by
  intro fuel
  induction fuel with
  | zero => intro off rem s hs; simp [loopStates] at hs; simp [hs]
  | succ m ih =>
    intro off rem s hs
    by_cases hr : rem = 0
    · simp only [loopStates, if_pos hr] at hs
      simp at hs; simp [hs]
    · simp only [loopStates, if_neg hr] at hs
      by_cases hgt : (rem : Int) > C
      · simp only [if_pos hgt] at hs
        split at hs
        · simp at hs; simp [hs]
        · rcases List.mem_cons.mp hs with h1 | h1
          · simp [h1]
          · have h2 := ih _ _ s h1
            omega
      · simp only [if_neg hgt] at hs
        split at hs
        · simp at hs; simp [hs]
        · rcases List.mem_cons.mp hs with h1 | h1
          · simp [h1]
          · have h2 := ih _ _ s h1
            omega

/-- The offset coordinate never decreases along the chunk-loop boundary
states. -/
theorem loopStates_chain (C : Int) :
    ∀ fuel off rem, (loopStates C fuel off rem).Chain' (fun a b => a.1 ≤ b.1) := by
  intro fuel
  induction fuel with
  | zero => intro off rem; simp [loopStates]
  | succ m ih =>
    intro off rem
    by_cases hr : rem = 0
    · simp [loopStates, hr]
    · simp only [loopStates, if_neg hr]
      by_cases hgt : (rem : Int) > C
      · simp only [if_pos hgt]
        split
        · simp
        · refine List.chain'_cons'.mpr ⟨?_, ih _ _⟩
          intro y hy
          rw [loopStates_head] at hy
          simp at hy
          subst hy
          simp
      · simp only [if_neg hgt]
        split
        · simp
        · refine List.chain'_cons'.mpr ⟨?_, ih _ _⟩
          intro y hy
          rw [loopStates_head] at hy
          simp at hy
          subst hy
          simp

/-- In a non-binary all-success run (every transaction answered by an empty
successful response), each chunk iteration is exactly one `dfu.put`
transaction that succeeds on the first attempt with no pending sub-poll. -/
theorem processChunk_allOk (enc : Nat → Nat → Option Nat)
    (off len remAfter pf k : Nat) :
    processChunk oracleOkEmpty enc 0 off len remAfter pf k =
      ([Ev.txChunk off len false], k + 1, RunRes.ok) := by
  simp [processChunk, confirmAndPoll, chunkRetry, oracleOkEmpty]

/-- In a non-binary all-success run, the chunk-loop blocks carry exactly the
pure chunk sequence `chunkPairsAux`. -/
theorem chunkLoop_pairs_allOk (Cn : Nat) (enc : Nat → Nat → Option Nat) (pf : Nat) :
    ∀ fuel off rem k,
      (chunkLoopAux oracleOkEmpty enc 0 (Cn : Int) pf fuel off rem k).1.map Prod.fst
        = chunkPairsAux Cn fuel off rem := by
  intro fuel
  induction fuel with
  | zero => intro off rem k; simp [chunkLoopAux, chunkPairsAux]
  | succ m ih =>
    intro off rem k
    by_cases hr : rem = 0
    · simp [chunkLoopAux, chunkPairsAux, hr]
    · have hnn : ¬ (if (rem : Int) > (Cn : Int) then (Cn : Int) else (rem : Int)) < 0 := by
        split <;> omega
      simp only [chunkLoopAux, chunkPairsAux, if_neg hr, if_neg hnn]
      rw [processChunk_allOk]
      simp only [List.map_cons, thisLen_toNat_natC]
      exact congrArg _ (ih _ _ _)

/-- Every event of the confirmation-and-sub-poll tail of a chunk iteration
is the backoff sleep, this chunk's own `dfu.put` transaction, a status poll,
or the 750 ms poll sleep. -/
theorem confirmAndPoll_mem (o : Oracle) (off len remAfter pf : Nat)
    (bin : Bool) (k : Nat) :
    ∀ e ∈ (confirmAndPoll o off len remAfter pf bin k).1,
      e = Ev.sleep 1000 ∨ e = Ev.txChunk off len bin ∨ e = Ev.txStatus ∨
        e = Ev.sleep 750 := by
  intro e he
  rcases hcr : chunkRetry o off len bin 3 3 k with ⟨revs, k1, r⟩
  have hrevs : ∀ x ∈ revs, x = Ev.sleep 1000 ∨ x = Ev.txChunk off len bin := by
    intro x hx
    exact chunkRetry_mem o off len bin 3 3 k x (by rw [hcr]; exact hx)
  rcases r with f | rsp
  · have heq : confirmAndPoll o off len remAfter pf bin k = (revs, k1, .failure f) := by
      unfold confirmAndPoll; rw [hcr]
    rw [heq] at he
    rcases hrevs e he with h | h
    · exact Or.inl h
    · exact Or.inr (Or.inl h)
  · have heq : confirmAndPoll o off len remAfter pf bin k =
        if rsp.pending = some (.jbool true) then
          (revs ++ (subPollAux o remAfter pf k1).1, (subPollAux o remAfter pf k1).2)
        else (revs, k1, .ok) := by
      unfold confirmAndPoll; rw [hcr]
    rw [heq] at he
    split at he
    · rcases List.mem_append.mp he with h1 | h1
      · rcases hrevs e h1 with h | h
        · exact Or.inl h
        · exact Or.inr (Or.inl h)
      · rcases subPollAux_mem o remAfter pf k1 e h1 with h | h
        · exact Or.inr (Or.inr (Or.inl h))
        · exact Or.inr (Or.inr (Or.inr h))
    · rcases hrevs e he with h | h
      · exact Or.inl h
      · exact Or.inr (Or.inl h)

/-- Every chunk transaction recorded during one chunk iteration carries that
iteration's own offset and length. -/
theorem processChunk_tx (o : Oracle) (enc : Nat → Nat → Option Nat)
    (bmax off len remAfter pf k : Nat) :
    ∀ e ∈ (processChunk o enc bmax off len remAfter pf k).1,
      ∀ o2 l2 b2, e = Ev.txChunk o2 l2 b2 → o2 = off ∧ l2 = len := by
  intro e he o2 l2 b2 hee
  subst hee
  have hcap : ∀ (bin : Bool) (k2 : Nat),
      Ev.txChunk o2 l2 b2 ∈ (confirmAndPoll o off len remAfter pf bin k2).1 →
      o2 = off ∧ l2 = len := by
    intro bin k2 h
    rcases confirmAndPoll_mem o off len remAfter pf bin k2 _ h with h1 | h1 | h1 | h1 <;>
      cases h1 <;> exact ⟨rfl, rfl⟩
  unfold processChunk at he
  split at he
  · rcases henc : enc off len with _ | el <;> rw [henc] at he
    · simp at he
    · rcases h0 : o k with e0 | r0 <;> rw [h0] at he
      · simp at he
      · rcases h1 : o (k + 1) with e1 | r1 <;> rw [h1] at he
        · simp at he
        · rcases h2 : o (k + 2) with e2 | r2 <;> rw [h2] at he
          · simp at he
          · simp only at he
            split at he
            · rcases List.mem_append.mp he with h3 | h3
              · simp at h3
              · exact hcap _ _ h3
            · simp at he
  · exact hcap _ _ he

/-- The COBS encoding, the `card.binary.put` announcement, the raw write and
the `card.binary` verification each occur at most once per chunk iteration:
the retry loop never re-executes them. -/
theorem processChunk_binary_steps_once (o : Oracle) (enc : Nat → Nat → Option Nat)
    (bmax off len remAfter pf k : Nat) :
    ((processChunk o enc bmax off len remAfter pf k).1.countP Ev.isCobsEncode ≤ 1) ∧
    ((processChunk o enc bmax off len remAfter pf k).1.countP Ev.isTxBinaryPut ≤ 1) ∧
    ((processChunk o enc bmax off len remAfter pf k).1.countP Ev.isSendRaw ≤ 1) ∧
    ((processChunk o enc bmax off len remAfter pf k).1.countP Ev.isTxVerify ≤ 1) := by
  have hcap : ∀ (bin : Bool) (k2 : Nat),
      ((confirmAndPoll o off len remAfter pf bin k2).1.countP Ev.isCobsEncode = 0) ∧
      ((confirmAndPoll o off len remAfter pf bin k2).1.countP Ev.isTxBinaryPut = 0) ∧
      ((confirmAndPoll o off len remAfter pf bin k2).1.countP Ev.isSendRaw = 0) ∧
      ((confirmAndPoll o off len remAfter pf bin k2).1.countP Ev.isTxVerify = 0) := by
    intro bin k2
    refine ⟨List.countP_eq_zero.mpr ?_, List.countP_eq_zero.mpr ?_,
      List.countP_eq_zero.mpr ?_, List.countP_eq_zero.mpr ?_⟩ <;>
      intro e he <;>
      rcases confirmAndPoll_mem o off len remAfter pf bin k2 e he with h | h | h | h <;>
      subst h <;> simp [Ev.isCobsEncode, Ev.isTxBinaryPut, Ev.isSendRaw, Ev.isTxVerify]
  unfold processChunk
  split
  · rcases henc : enc off len with _ | el
    · refine ⟨?_, ?_, ?_, ?_⟩ <;> simp [Ev.isCobsEncode, Ev.isTxBinaryPut,
        Ev.isSendRaw, Ev.isTxVerify]
    · rcases h0 : o k with e0 | r0
      · refine ⟨?_, ?_, ?_, ?_⟩ <;> simp [Ev.isCobsEncode, Ev.isTxBinaryPut,
          Ev.isSendRaw, Ev.isTxVerify]
      · rcases h1 : o (k + 1) with e1 | r1
        · refine ⟨?_, ?_, ?_, ?_⟩ <;> simp [Ev.isCobsEncode, Ev.isTxBinaryPut,
            Ev.isSendRaw, Ev.isTxVerify]
        · rcases h2 : o (k + 2) with e2 | r2
          · refine ⟨?_, ?_, ?_, ?_⟩ <;> simp [Ev.isCobsEncode, Ev.isTxBinaryPut,
              Ev.isSendRaw, Ev.isTxVerify]
          · obtain ⟨hc1, hc2, hc3, hc4⟩ := hcap true (k + 3)
            simp only
            split
            · refine ⟨?_, ?_, ?_, ?_⟩ <;>
                simp [List.countP_append, List.countP_cons, hc1, hc2, hc3, hc4,
                  Ev.isCobsEncode, Ev.isTxBinaryPut, Ev.isSendRaw, Ev.isTxVerify]
            · refine ⟨?_, ?_, ?_, ?_⟩ <;> simp [Ev.isCobsEncode, Ev.isTxBinaryPut,
                Ev.isSendRaw, Ev.isTxVerify]
  · obtain ⟨hc1, hc2, hc3, hc4⟩ := hcap false k
    exact ⟨by omega, by omega, by omega, by omega⟩

/-- The chunk blocks produced by any run of the chunk loop are adjacent:
each block's offset is exactly where the previous block ended. -/
theorem chunkLoop_adjacent (o : Oracle) (enc : Nat → Nat → Option Nat)
    (bmax : Nat) (C : Int) (pf : Nat) :
    ∀ fuel off rem k,
      adjacentFrom off
        ((chunkLoopAux o enc bmax C pf fuel off rem k).1.map Prod.fst) := by
  intro fuel
  induction fuel with
  | zero => intro off rem k; simp [chunkLoopAux, adjacentFrom]
  | succ m ih =>
    intro off rem k
    by_cases hr : rem = 0
    · simp [chunkLoopAux, hr, adjacentFrom]
    · simp only [chunkLoopAux, if_neg hr]
      generalize (if (rem : Int) > C then C else (rem : Int)) = T
      split
      · simp [adjacentFrom]
      · rcases hpc : processChunk o enc bmax off T.toNat (rem - T.toNat) pf k
          with ⟨evs, k1, r⟩
        rcases r with _ | f | _ | _ <;> simp [adjacentFrom] <;> exact ih _ _ _

/-- With a positive chunk size every chunk block has positive length. -/
theorem chunkLoop_pos (o : Oracle) (enc : Nat → Nat → Option Nat)
    (bmax : Nat) (C : Int) (hC : 0 < C) (pf : Nat) :
    ∀ fuel off rem k,
      ∀ p ∈ (chunkLoopAux o enc bmax C pf fuel off rem k).1.map Prod.fst,
        0 < p.2 := by
  intro fuel
  induction fuel with
  | zero => intro off rem k p hp; simp [chunkLoopAux] at hp
  | succ m ih =>
    intro off rem k p hp
    by_cases hr : rem = 0
    · simp [chunkLoopAux, hr] at hp
    · simp only [chunkLoopAux, if_neg hr] at hp
      have hT := thisLen_toNat_pos C hC rem hr
      generalize hTT : (if (rem : Int) > C then C else (rem : Int)) = T at hp hT
      split at hp
      · simp at hp
      · rcases hpc : processChunk o enc bmax off T.toNat (rem - T.toNat) pf k
          with ⟨evs, k1, r⟩
        rw [hpc] at hp
        rcases r with _ | f | _ | _ <;> simp only [List.map_cons] at hp <;>
          rcases List.mem_cons.mp hp with h1 | h1 <;>
          first
          | (subst h1; exact hT)
          | (exact ih _ _ _ p h1)
          | simp at h1

/-- Every chunk transaction recorded inside a chunk block carries the
block's own offset and length: a chunk is fully processed — including its
pending sub-poll — before any event of the next chunk occurs. -/
theorem chunkLoop_block_tx (o : Oracle) (enc : Nat → Nat → Option Nat)
    (bmax : Nat) (C : Int) (pf : Nat) :
    ∀ fuel off rem k, ∀ b ∈ (chunkLoopAux o enc bmax C pf fuel off rem k).1,
      ∀ e ∈ b.2, ∀ o2 l2 b2, e = Ev.txChunk o2 l2 b2 →
        o2 = b.1.1 ∧ l2 = b.1.2 := by
  intro fuel
  induction fuel with
  | zero => intro off rem k b hb; simp [chunkLoopAux] at hb
  | succ m ih =>
    intro off rem k b hb
    by_cases hr : rem = 0
    · simp [chunkLoopAux, hr] at hb
    · simp only [chunkLoopAux, if_neg hr] at hb
      generalize (if (rem : Int) > C then C else (rem : Int)) = T at hb
      split at hb
      · simp at hb
      · rcases hpc : processChunk o enc bmax off T.toNat (rem - T.toNat) pf k
          with ⟨evs, k1, r⟩
        rw [hpc] at hb
        have hfst : ∀ e ∈ evs, ∀ o2 l2 b2, e = Ev.txChunk o2 l2 b2 →
            o2 = off ∧ l2 = T.toNat := by
          intro e he
          exact processChunk_tx o enc bmax off T.toNat (rem - T.toNat) pf k e
            (by rw [hpc]; exact he)
        rcases r with _ | f | _ | _ <;>
          rcases List.mem_cons.mp hb with h1 | h1 <;>
          first
          | (subst h1; exact hfst)
          | (exact ih _ _ _ b h1)
          | simp at h1

/-- Every offset of an adjacent chain starting at `start` is at least
`start`. -/
theorem adjacentFrom_le (l : List (Nat × Nat)) :
    ∀ start, adjacentFrom start l → ∀ p ∈ l, start ≤ p.1 := by
  induction l with
  | nil => intro start _ p hp; simp at hp
  | cons a rest ih =>
    intro start h p hp
    obtain ⟨ha, hrest⟩ := h
    rcases List.mem_cons.mp hp with h1 | h1
    · subst h1; omega
    · have := ih (a.1 + a.2) hrest p h1
      omega

/-- An adjacent chain of positive-length blocks has strictly increasing
offsets. -/
theorem adjacentFrom_pairwise (l : List (Nat × Nat)) :
    ∀ start, adjacentFrom start l → (∀ p ∈ l, 0 < p.2) →
      l.Pairwise (fun a b => a.1 < b.1) := by
  induction l with
  | nil => intro _ _ _; exact List.Pairwise.nil
  | cons a rest ih =>
    intro start h hpos
    obtain ⟨ha, hrest⟩ := h
    refine List.Pairwise.cons ?_ (ih (a.1 + a.2) hrest fun p hp => hpos p (List.mem_cons_of_mem _ hp))
    intro b hb
    have h1 := adjacentFrom_le rest (a.1 + a.2) hrest b hb
    have h2 := hpos a (List.mem_cons_self _ _)
    omega

/-- A transport stub whose initiate reply negotiates chunk size 1024 and
whose every later transaction fails with a card I/O error. -/
def oracleInitThenIo : Oracle := fun k =>
  if k = 0 then .ok { length := some (.jfloat 1024) } else .error errIoStub

/-- A binary-capable full-transfer stub: the initiate reply negotiates chunk
size 7, the `card.binary` verification (4th interaction) reports length 5
for the 7-byte chunk, and everything else succeeds. -/
def oracleBinMismatchFull : Oracle := fun k =>
  if k = 0 then .ok { length := some (.jfloat 7) }
  else if k = 3 then .ok { length := some (.jfloat 5) }
  else .ok {}

/-- The retry loop with at least one attempt left always issues this chunk's
`dfu.put` transaction at least once, and it survives into the
confirmation-and-sub-poll tail's event list. -/
theorem confirmAndPoll_tx_mem (o : Oracle) (off len remAfter pf : Nat)
    (bin : Bool) (k : Nat) :
    Ev.txChunk off len bin ∈ (confirmAndPoll o off len remAfter pf bin k).1 := by
  rcases hcr : chunkRetry o off len bin 3 3 k with ⟨revs, k1, r⟩
  have hm : Ev.txChunk off len bin ∈ revs := by
    have := chunkRetry_tx_mem o off len bin 3 2 k
    rw [hcr] at this
    exact this
  rcases r with f | rsp
  · have heq : confirmAndPoll o off len remAfter pf bin k = (revs, k1, .failure f) := by
      unfold confirmAndPoll; rw [hcr]
    rw [heq]
    exact hm
  · have heq : confirmAndPoll o off len remAfter pf bin k =
        if rsp.pending = some (.jbool true) then
          (revs ++ (subPollAux o remAfter pf k1).1, (subPollAux o remAfter pf k1).2)
        else (revs, k1, .ok) := by
      unfold confirmAndPoll; rw [hcr]
    rw [heq]
    split
    · exact List.mem_append_left _ hm
    · exact hm

/-- C1: during the post-transfer completion wait (entered only for Notecard
firmware uploads), a device whose every `dfu.status` transaction fails with
a connection-style error drives the consecutive-loss counter to 3 on the
third poll, at which point the Completion Watcher declares completion after
exactly 3 `dfu.status` transactions — far short of the 60-iteration budget —
and the whole call still returns nil: no oracle behaviour during this wait
can surface as an error. -/
theorem completion_restart_tolerance (o : Oracle) (r0 : Resp) (e : TxError)
    (h0 : o 0 = .ok r0) (hc : connStyle e = true) :
    (completionPoll (fun _ => .error e) 0 =
      ([Ev.txDfuStatus, Ev.sleep 1000, Ev.txDfuStatus, Ev.sleep 1000,
        Ev.txDfuStatus], true, 3)) ∧
    ((completionPoll oracleConnLoss 0).1.countP Ev.isTxDfuStatus = 3) ∧
    (loadBinary oracleInitThenConnLoss encStub true 0 0 true 1 0 =
      ([Ev.txInitiate, Ev.txDfuStatus, Ev.sleep 1000, Ev.txDfuStatus,
        Ev.sleep 1000, Ev.txDfuStatus], RunRes.ok)) ∧
    ((loadBinary o encStub true 0 0 true 1 0).2 = RunRes.ok) := by
  refine ⟨?_, rfl, rfl, ?_⟩
  · simp [completionPoll, completionPollAux, hc]
  · simp [loadBinary, h0, chunkLoopAux]

/-- Witness for C1 at a concrete device: an all-successful oracle still
returns nil from the full call. -/
theorem completion_restart_tolerance_witness :
    (loadBinary oracleOkEmpty encStub true 0 0 true 1 0).2 = RunRes.ok :=
  (completion_restart_tolerance oracleOkEmpty {} errConn rfl rfl).2.2.2

/-- C2: for every image length L and every negotiated chunk size C > 0, the
chunk loop's `(offset, thisLen)` pairs — `thisLen = min(remaining, C)` —
tile `[0, L)` exactly: offsets start at 0 and strictly increase, consecutive
chunks are adjacent with no gaps or overlaps, every `thisLen` is positive,
and the final offset reaches L; in an all-success non-binary run the chunk
loop issues exactly these pairs as its `dfu.put` chunk requests. -/
theorem chunk_pairs_partition (L C : Nat) (hC : 0 < C) :
    isPartition 0 L (chunkPairs C L) ∧
    (chunkPairs C L).Pairwise (fun a b => a.1 < b.1) ∧
    ∀ pf k enc,
      (chunkLoopAux oracleOkEmpty enc 0 (C : Int) pf L 0 L k).1.map Prod.fst
        = chunkPairs C L := by
  refine ⟨?_, ?_, ?_⟩
  · have := chunkPairsAux_partition C hC L 0 L le_rfl
    simpa [chunkPairs] using this
  · exact isPartition_pairwise _ 0 L
      (by simpa [chunkPairs] using chunkPairsAux_partition C hC L 0 L le_rfl)
  · intro pf k enc
    exact chunkLoop_pairs_allOk C enc pf L 0 L k

/-- Witness for C2 at L = 5, C = 2 (chunks 2, 2, 1). -/
theorem chunk_pairs_partition_witness : isPartition 0 5 (chunkPairs 2 5) :=
  (chunk_pairs_partition 5 2 (by decide)).1

/-- C3: the session counters satisfy `offset + remaining = totalLength` at
every chunk-loop iteration boundary (the first boundary being `(0, L)`), the
offset never decreases, and — for any device behaviour — the chunk blocks
are adjacent with strictly increasing offsets, while every chunk transaction
recorded inside a block carries that block's own offset and length: each
chunk, including its pending sub-poll, is fully processed before the next
chunk's request is issued. -/
theorem session_counter_invariants (o : Oracle) (enc : Nat → Nat → Option Nat)
    (bmax pf fuel L k : Nat) (C : Int) (hC : 0 < C) :
    ((loopStates C fuel 0 L).head? = some (0, L)) ∧
    (∀ s ∈ loopStates C fuel 0 L, s.1 + s.2 = L) ∧
    ((loopStates C fuel 0 L).Chain' (fun a b => a.1 ≤ b.1)) ∧
    adjacentFrom 0 ((chunkLoopAux o enc bmax C pf fuel 0 L k).1.map Prod.fst) ∧
    ((chunkLoopAux o enc bmax C pf fuel 0 L k).1.map Prod.fst).Pairwise
      (fun a b => a.1 < b.1) ∧
    (∀ b ∈ (chunkLoopAux o enc bmax C pf fuel 0 L k).1, ∀ e ∈ b.2,
      ∀ o2 l2 b2, e = Ev.txChunk o2 l2 b2 → o2 = b.1.1 ∧ l2 = b.1.2) := by
  refine ⟨loopStates_head C fuel 0 L, ?_, loopStates_chain C fuel 0 L,
    chunkLoop_adjacent o enc bmax C pf fuel 0 L k, ?_,
    chunkLoop_block_tx o enc bmax C pf fuel 0 L k⟩
  · intro s hs
    have := loopStates_sum C fuel 0 L s hs
    omega
  · exact adjacentFrom_pairwise _ 0
      (chunkLoop_adjacent o enc bmax C pf fuel 0 L k)
      (chunkLoop_pos o enc bmax C hC pf fuel 0 L k)

/-- Witness for C3 at a concrete all-success 5-byte transfer with chunk size
2: the issued chunk offsets strictly increase. -/
theorem session_counter_invariants_witness :
    ((chunkLoopAux oracleOkEmpty encStub 0 (2 : Int) 0 3 0 5 0).1.map
      Prod.fst).Pairwise (fun a b => a.1 < b.1) :=
  (session_counter_invariants oracleOkEmpty encStub 0 0 3 5 0 2
    (by decide)).2.2.2.2.1

/-- C4: each chunk's `dfu.put` send is attempted at most 3 times; a stub
failing with card I/O errors exactly twice then succeeding yields success on
the 3rd attempt with the 1000 ms backoff invoked exactly twice; a stub that
always fails with card I/O errors aborts after exactly 3 attempts with an
error naming the chunk's offset and the retry count (and the whole transfer
returns that failure); any error of another class aborts immediately after a
single attempt with no backoff. -/
theorem chunk_retry_bound :
    (∀ (o : Oracle) off len bin k,
      ((chunkRetry o off len bin 3 3 k).1.countP Ev.isTxChunk) ≤ 3) ∧
    (chunkRetry oracleIoTwice 7 9 false 3 3 0 =
      ([Ev.txChunk 7 9 false, Ev.sleep 1000, Ev.txChunk 7 9 false,
        Ev.sleep 1000, Ev.txChunk 7 9 false], 3, .ok {})) ∧
    ((chunkRetry oracleIoTwice 7 9 false 3 3 0).1.countP Ev.isTxChunk = 3 ∧
      (chunkRetry oracleIoTwice 7 9 false 3 3 0).1.countP Ev.isSleep = 2) ∧
    (∀ off len bin k, chunkRetry oracleIoAlways off len bin 3 3 k =
      ([Ev.txChunk off len bin, Ev.sleep 1000, Ev.txChunk off len bin,
        Ev.sleep 1000, Ev.txChunk off len bin], k + 3,
        .error (.chunkSendFailed off 3 errIoStub))) ∧
    (loadBinary oracleInitThenIo encStub true 0 1 true 5 0 =
      ([Ev.txInitiate, Ev.txChunk 0 1 false, Ev.sleep 1000,
        Ev.txChunk 0 1 false, Ev.sleep 1000, Ev.txChunk 0 1 false],
        RunRes.failure (Fail.chunkSendFailed 0 3 errIoStub))) ∧
    (∀ (o : Oracle) e off len bin k, o k = .error e → e.cardIoFlag = false →
      chunkRetry o off len bin 3 3 k =
        ([Ev.txChunk off len bin], k + 1,
          .error (.chunkSendFailed off 3 e))) := by
  refine ⟨?_, rfl, ⟨rfl, rfl⟩, ?_, rfl, ?_⟩
  · intro o off len bin k
    exact chunkRetry_count_le o off len bin 3 3 k
  · intro off len bin k
    simp [chunkRetry, oracleIoAlways, errIoStub]
  · intro o e off len bin k h hf
    simp [chunkRetry, h, hf]

/-- Witness for C4 at a concrete non-I/O error: the transfer aborts after a
single attempt. -/
theorem chunk_retry_bound_witness :
    chunkRetry (fun _ => .error errPlain) 5 6 false 3 3 0 =
      ([Ev.txChunk 5 6 false], 1, .error (.chunkSendFailed 5 3 errPlain)) :=
  chunk_retry_bound.2.2.2.2.2 (fun _ => .error errPlain) errPlain 5 6 false 0
    rfl rfl

/-- C5: in binary mode, after the raw COBS write the transfer issues a
`card.binary` verification and compares the device-reported length with the
chunk's original pre-encoding length; on mismatch the chunk iteration stops
right there with an error naming the sent and received lengths — no
`dfu.put` confirmation is issued — and the whole transfer aborts; on
equality the iteration proceeds to the `dfu.put` confirmation
(`binary:true`), which is then actually transacted. -/
theorem binary_verify_gates_confirmation (o : Oracle)
    (enc : Nat → Nat → Option Nat) (bmax off len remAfter pf k el : Nat)
    (r1 r2 vr : Resp) (hb : 0 < bmax) (he : enc off len = some el)
    (h1 : o k = .ok r1) (h2 : o (k + 1) = .ok r2) (h3 : o (k + 2) = .ok vr) :
    (parseVerifyLen vr.length ≠ (len : Int) →
      processChunk o enc bmax off len remAfter pf k =
        ([Ev.cobsEncode off len, Ev.txBinaryPut el, Ev.sendRaw (el + 1),
          Ev.txVerify], k + 3,
          .failure (.verifyMismatch len (parseVerifyLen vr.length)))) ∧
    (loadBinary oracleBinMismatchFull encStub true 1 7 true 5 0 =
      ([Ev.txInitiate, Ev.cobsEncode 0 7, Ev.txBinaryPut 8, Ev.sendRaw 9,
        Ev.txVerify], RunRes.failure (Fail.verifyMismatch 7 5))) ∧
    (parseVerifyLen vr.length = (len : Int) →
      processChunk o enc bmax off len remAfter pf k =
        ([Ev.cobsEncode off len, Ev.txBinaryPut el, Ev.sendRaw (el + 1),
          Ev.txVerify] ++ (confirmAndPoll o off len remAfter pf true (k + 3)).1,
          (confirmAndPoll o off len remAfter pf true (k + 3)).2) ∧
      Ev.txChunk off len true ∈ (processChunk o enc bmax off len remAfter pf k).1) := by
  refine ⟨?_, rfl, ?_⟩
  · intro hne
    simp [processChunk, hb, he, h1, h2, h3, hne]
  · intro heq
    have h4 : processChunk o enc bmax off len remAfter pf k =
        ([Ev.cobsEncode off len, Ev.txBinaryPut el, Ev.sendRaw (el + 1),
          Ev.txVerify] ++ (confirmAndPoll o off len remAfter pf true (k + 3)).1,
          (confirmAndPoll o off len remAfter pf true (k + 3)).2) := by
      simp [processChunk, hb, he, h1, h2, h3, heq]
    refine ⟨h4, ?_⟩
    rw [h4]
    exact List.mem_append_right _
      (confirmAndPoll_tx_mem o off len remAfter pf true (k + 3))

/-- Witness for C5 at a concrete corrupted write: a 7-byte chunk whose
verification reports 5 bytes fails before any `dfu.put` confirmation. -/
theorem binary_verify_gates_confirmation_witness :
    processChunk oracleBinMismatch encStub 1 0 7 0 0 0 =
      ([Ev.cobsEncode 0 7, Ev.txBinaryPut 8, Ev.sendRaw 9, Ev.txVerify], 3,
        .failure (.verifyMismatch 7 5)) :=
  (binary_verify_gates_confirmation oracleBinMismatch encStub 1 0 7 0 0 0 8
    {} {} { length := some (.jfloat 5) } (by decide) rfl rfl rfl rfl).1
    (by decide)

/-- A chunk iteration that returns a fatal error makes the chunk loop stop
at that chunk and return the same fatal error: per-chunk failures are not
retried by the loop. -/
theorem chunkLoop_first_fail (o : Oracle) (enc : Nat → Nat → Option Nat)
    (bmax : Nat) (C : Int) (pf fuel off rem k : Nat) (f : Fail)
    (hr : rem ≠ 0)
    (hnn : ¬ (if (rem : Int) > C then C else (rem : Int)) < 0)
    (hpc : (processChunk o enc bmax off
      (if (rem : Int) > C then C else (rem : Int)).toNat
      (rem - (if (rem : Int) > C then C else (rem : Int)).toNat) pf k).2.2 =
      RunRes.failure f) :
    (chunkLoopAux o enc bmax C pf (fuel + 1) off rem k).2.2 =
      RunRes.failure f := by
  simp only [chunkLoopAux, if_neg hr, if_neg hnn]
  rcases hp2 : processChunk o enc bmax off
      (if (rem : Int) > C then C else (rem : Int)).toNat
      (rem - (if (rem : Int) > C then C else (rem : Int)).toNat) pf k
    with ⟨evs, k1, r⟩
  rw [hp2] at hpc
  simp at hpc
  subst hpc
  rfl

/-- A chunk loop that returns a fatal error makes the whole call return that
fatal error: chunk-level failures abort the transfer. -/
theorem loadBinary_fail_of_loop (o : Oracle) (enc : Nat → Nat → Option Nat)
    (bmax L : Nat) (isFw : Bool) (fuel pf : Nat) (r0 : Resp) (f : Fail)
    (h0 : o 0 = .ok r0)
    (hl : (chunkLoopAux o enc bmax (negotiatedChunkLen r0.length) pf fuel 0 L
      1).2.2 = RunRes.failure f) :
    (loadBinary o enc true bmax L isFw fuel pf).2 = RunRes.failure f := by
  simp only [loadBinary, if_pos, h0]
  rcases hc : chunkLoopAux o enc bmax (negotiatedChunkLen r0.length) pf fuel 0 L 1
    with ⟨blocks, k1, r⟩
  rw [hc] at hl
  simp at hl
  subst hl
  rfl

/-- C6 counterexample: in a binary-mode chunk whose `dfu.put` confirmation
fails once with a card I/O error and is then retried successfully, the trace
contains the COBS encoding, the `card.binary.put` announcement, the raw
write and the `card.binary` verification exactly once each but the `dfu.put`
confirmation twice: the 3-attempt retry loop does not resend the whole chunk
— it re-issues only the `dfu.put` request, contradicting the claim. -/
theorem binary_retry_whole_chunk_cex :
    processChunk oracleBinRetry encStub 1 0 4 0 10 0 =
      ([Ev.cobsEncode 0 4, Ev.txBinaryPut 5, Ev.sendRaw 6, Ev.txVerify,
        Ev.txChunk 0 4 true, Ev.sleep 1000, Ev.txChunk 0 4 true], 5,
        RunRes.ok) ∧
    ((processChunk oracleBinRetry encStub 1 0 4 0 10 0).1.countP
      Ev.isCobsEncode = 1) ∧
    ((processChunk oracleBinRetry encStub 1 0 4 0 10 0).1.countP
      Ev.isTxBinaryPut = 1) ∧
    ((processChunk oracleBinRetry encStub 1 0 4 0 10 0).1.countP
      Ev.isSendRaw = 1) ∧
    ((processChunk oracleBinRetry encStub 1 0 4 0 10 0).1.countP
      Ev.isTxVerify = 1) ∧
    ((processChunk oracleBinRetry encStub 1 0 4 0 10 0).1.countP
      Ev.isTxChunk = 2) :=
  ⟨rfl, rfl, rfl, rfl, rfl, rfl⟩

/-- C6 amended: in binary mode a `dfu.put` confirmation failure classified
as a device I/O error is handled by the 3-attempt retry loop re-issuing only
the `dfu.put` confirmation request — every event of the retry loop is the
backoff sleep or the chunk's `dfu.put` transaction — while the COBS
encoding, the `card.binary.put` announcement, the raw byte write and the
`card.binary` verification occur at most once per chunk iteration and are
never re-executed by the retry loop; an error in any of those steps (of any
class, card I/O included) ends the chunk iteration immediately with that
step's fatal error — no retry, no further attempt — and a chunk iteration's
fatal error propagates through the chunk loop and aborts the whole
transfer. -/
theorem binary_retry_reissues_only_put :
    (∀ (o : Oracle) off len bin maxR aL k,
      ∀ e ∈ (chunkRetry o off len bin maxR aL k).1,
        e = Ev.sleep 1000 ∨ e = Ev.txChunk off len bin) ∧
    (∀ (o : Oracle) (enc : Nat → Nat → Option Nat) bmax off len remAfter pf k,
      ((processChunk o enc bmax off len remAfter pf k).1.countP
        Ev.isCobsEncode ≤ 1) ∧
      ((processChunk o enc bmax off len remAfter pf k).1.countP
        Ev.isTxBinaryPut ≤ 1) ∧
      ((processChunk o enc bmax off len remAfter pf k).1.countP
        Ev.isSendRaw ≤ 1) ∧
      ((processChunk o enc bmax off len remAfter pf k).1.countP
        Ev.isTxVerify ≤ 1)) ∧
    (∀ (o : Oracle) (enc : Nat → Nat → Option Nat) bmax off len remAfter pf k,
      0 < bmax → enc off len = none →
      processChunk o enc bmax off len remAfter pf k =
        ([Ev.cobsEncode off len], k, .failure .cobsEncodeFailed)) ∧
    (∀ (o : Oracle) (enc : Nat → Nat → Option Nat) bmax off len remAfter pf k
      el e, 0 < bmax → enc off len = some el → o k = .error e →
      processChunk o enc bmax off len remAfter pf k =
        ([Ev.cobsEncode off len, Ev.txBinaryPut el], k + 1,
          .failure (.binaryPutFailed e))) ∧
    (∀ (o : Oracle) (enc : Nat → Nat → Option Nat) bmax off len remAfter pf k
      el (r1 : Resp) e, 0 < bmax → enc off len = some el → o k = .ok r1 →
      o (k + 1) = .error e →
      processChunk o enc bmax off len remAfter pf k =
        ([Ev.cobsEncode off len, Ev.txBinaryPut el, Ev.sendRaw (el + 1)],
          k + 2, .failure (.sendCobsFailed e))) ∧
    (∀ (o : Oracle) (enc : Nat → Nat → Option Nat) bmax off len remAfter pf k
      el (r1 r2 : Resp) e, 0 < bmax → enc off len = some el → o k = .ok r1 →
      o (k + 1) = .ok r2 → o (k + 2) = .error e →
      processChunk o enc bmax off len remAfter pf k =
        ([Ev.cobsEncode off len, Ev.txBinaryPut el, Ev.sendRaw (el + 1),
          Ev.txVerify], k + 3, .failure (.verifyFailed e))) ∧
    (∀ (o : Oracle) (enc : Nat → Nat → Option Nat) (bmax : Nat) (C : Int)
      (pf fuel off rem k : Nat) (f : Fail), rem ≠ 0 →
      ¬ (if (rem : Int) > C then C else (rem : Int)) < 0 →
      (processChunk o enc bmax off
        (if (rem : Int) > C then C else (rem : Int)).toNat
        (rem - (if (rem : Int) > C then C else (rem : Int)).toNat) pf k).2.2 =
        RunRes.failure f →
      (chunkLoopAux o enc bmax C pf (fuel + 1) off rem k).2.2 =
        RunRes.failure f) ∧
    (∀ (o : Oracle) (enc : Nat → Nat → Option Nat) (bmax L : Nat)
      (isFw : Bool) (fuel pf : Nat) (r0 : Resp) (f : Fail), o 0 = .ok r0 →
      (chunkLoopAux o enc bmax (negotiatedChunkLen r0.length) pf fuel 0 L
        1).2.2 = RunRes.failure f →
      (loadBinary o enc true bmax L isFw fuel pf).2 = RunRes.failure f) := by
  refine ⟨fun o off len bin maxR aL k => chunkRetry_mem o off len bin maxR aL k,
    fun o enc bmax off len remAfter pf k =>
      processChunk_binary_steps_once o enc bmax off len remAfter pf k,
    ?_, ?_, ?_, ?_,
    fun o enc bmax C pf fuel off rem k f =>
      chunkLoop_first_fail o enc bmax C pf fuel off rem k f,
    fun o enc bmax L isFw fuel pf r0 f =>
      loadBinary_fail_of_loop o enc bmax L isFw fuel pf r0 f⟩
  · intro o enc bmax off len remAfter pf k hb he
    simp [processChunk, hb, he]
  · intro o enc bmax off len remAfter pf k el e hb he ho
    simp [processChunk, hb, he, ho]
  · intro o enc bmax off len remAfter pf k el r1 e hb he h1 ho
    simp [processChunk, hb, he, h1, ho]
  · intro o enc bmax off len remAfter pf k el r1 r2 e hb he h1 h2 ho
    simp [processChunk, hb, he, h1, h2, ho]

/-- Witness for C6 (amended) at concrete inputs: a member of the concrete
retry trace is the backoff sleep or the chunk's `dfu.put` transaction, the
COBS encoding occurs at most once in the retried binary chunk, and a
`card.binary.put` failure with a card I/O error aborts the chunk iteration
after that single transaction with no retry. -/
theorem binary_retry_reissues_only_put_witness :
    (Ev.txChunk 7 9 false = Ev.sleep 1000 ∨
      Ev.txChunk 7 9 false = Ev.txChunk 7 9 false) ∧
    ((processChunk oracleBinRetry encStub 1 0 4 0 10 0).1.countP
      Ev.isCobsEncode ≤ 1) ∧
    (processChunk (fun _ => .error errIoStub) encStub 1 0 4 0 0 0 =
      ([Ev.cobsEncode 0 4, Ev.txBinaryPut 5], 1,
        .failure (.binaryPutFailed errIoStub))) :=
  ⟨binary_retry_reissues_only_put.1 oracleIoTwice 7 9 false 3 3 0 _ (by decide),
   (binary_retry_reissues_only_put.2.1 oracleBinRetry encStub 1 0 4 0 10 0).1,
   binary_retry_reissues_only_put.2.2.2.1 (fun _ => .error errIoStub) encStub
     1 0 4 0 0 0 5 errIoStub (by decide) rfl rfl⟩

/-- C7: a chunk response reporting `pending:true` triggers the sub-poll,
which issues bare `dfu.put` status requests with a 750 ms sleep between them
until one reports `pending:false` — for statuses true, true, false it issues
exactly 3 status requests before the chunk iteration completes; a poll error
recognized as DFU-not-ready / DFU-in-progress / "firmware update is in
progress" is an acceptable terminal state exactly when `remaining = 0`,
and every other poll error (or such an error with bytes remaining) aborts
with the DFU-status error. -/
theorem pending_subpoll_behavior (o : Oracle) (e : TxError)
    (remAfter k fuel : Nat) (ho : o k = .error e) :
    (processChunk oraclePendTTF encStub 0 0 1 0 10 0 =
      ([Ev.txChunk 0 1 false, Ev.txStatus, Ev.sleep 750, Ev.txStatus,
        Ev.sleep 750, Ev.txStatus], 4, RunRes.ok)) ∧
    ((processChunk oraclePendTTF encStub 0 0 1 0 10 0).1.countP
      Ev.isTxStatus = 3) ∧
    (dfuBusy e = true → remAfter = 0 →
      subPollAux o remAfter (fuel + 1) k = ([Ev.txStatus], k + 1, RunRes.ok)) ∧
    (dfuBusy e = true → remAfter ≠ 0 →
      subPollAux o remAfter (fuel + 1) k =
        ([Ev.txStatus], k + 1, .failure (.dfuStatusError e))) ∧
    (dfuBusy e = false →
      subPollAux o remAfter (fuel + 1) k =
        ([Ev.txStatus], k + 1, .failure (.dfuStatusError e))) := by
  refine ⟨rfl, rfl, ?_, ?_, ?_⟩
  · intro hb hrem
    simp [subPollAux, ho, hb, hrem]
  · intro hb hrem
    simp [subPollAux, ho, hb, hrem]
  · intro hb
    simp [subPollAux, ho, hb]

/-- Witness for C7 at a concrete DFU-in-progress error with nothing
remaining: the sub-poll ends as an acceptable terminal state. -/
theorem pending_subpoll_behavior_witness :
    subPollAux (fun _ => .error errBusy) 0 1 0 = ([Ev.txStatus], 1, RunRes.ok) :=
  (pending_subpoll_behavior (fun _ => .error errBusy) errBusy 0 0 0
    rfl).2.2.1 rfl rfl

/-- C8 counterexample: against a device that reports `pending:true` on every
status poll, the pending sub-poll never terminates — it is not a
bounded-duration wait loop. -/
theorem subpoll_bounded_cex : ¬ subPollTerminates oraclePendAlwaysTrue 0 0 := by
  rintro ⟨fuel, hf⟩
  exact hf (subPoll_diverges_on_always_pending fuel 0)

/-- C8 amended: the per-chunk pending sub-poll is an unbounded wait loop: it
terminates exactly when some status reply is an error or a response
reporting the boolean `pending:false`; a device reporting `pending:true` on
every poll — or responses lacking a boolean pending field — keeps it polling
forever. -/
theorem subpoll_terminates_iff (o : Oracle) (remAfter k : Nat) :
    subPollTerminates o remAfter k ↔ ∃ n, termReply (o (k + n)) := by
  constructor
  · rintro ⟨fuel, hf⟩
    exact subPollAux_term_fwd o remAfter fuel k hf
  · rintro ⟨n, hn⟩
    exact ⟨n + 1, subPollAux_term_back o remAfter n k hn⟩

/-- C9 counterexample: the 3500-byte non-binary transfer with negotiated
chunk size 1024 issues chunk requests `(0,1024), (1024,1024), (2048,1024),
(3072,428)` — the final chunk is 428 bytes (3500 − 3072), not the 332 the
claim states. -/
theorem scenario3500_cex :
    ((loadBinary oracleLen1024 encStub true 0 3500 true 10 0).1.filterMap
      Ev.txChunkArgs ≠
      [(0, 1024, false), (1024, 1024, false), (2048, 1024, false),
        (3072, 332, false)]) ∧
    ((loadBinary oracleLen1024 encStub true 0 3500 true 10 0).1.filterMap
      Ev.txChunkArgs =
      [(0, 1024, false), (1024, 1024, false), (2048, 1024, false),
        (3072, 428, false)]) :=
  ⟨by decide, rfl⟩

/-- C9 amended: a 3500-byte image with negotiated chunk size 1024 and
`binaryMax = 0` produces exactly 4 `dfu.put` chunk requests with offsets
0, 1024, 2048, 3072 and lengths 1024, 1024, 1024, 428, and the reported
throughput divides `totalLength` by an `elapsedSeconds` value that is at
least 1. -/
theorem scenario3500_amended (t0 t1 : Int) (h : t0 ≤ t1) :
    ((loadBinary oracleLen1024 encStub true 0 3500 true 10 0).1.filterMap
      Ev.txChunkArgs =
      [(0, 1024, false), (1024, 1024, false), (2048, 1024, false),
        (3072, 428, false)]) ∧
    ((loadBinary oracleLen1024 encStub true 0 3500 true 10 0).1.countP
      Ev.isTxChunk = 4) ∧
    1 ≤ elapsedSecs t0 t1 := by
  refine ⟨rfl, rfl, ?_⟩
  unfold elapsedSecs
  omega

/-- Witness for C9 (amended) at concrete timestamps 3 and 10. -/
theorem scenario3500_amended_witness : 1 ≤ elapsedSecs 3 10 :=
  (scenario3500_amended 3 10 (by decide)).2.2

/-- C10: the defensive parse of the initiate response's `length` field
returns a negative value unchanged (as a float64 or an int directly, and
via `Atoi` for a numeric string), the zero-only default does not repair it,
and for a non-empty image the first chunk iteration then computes
`thisLen = chunkLen < 0` and evaluates `bin[offset : offset+thisLen]` with
its end before its start: the run ends in a runtime panic, not a returned
error. -/
theorem negative_chunklen_panics (L : Nat) (n : Int) (v : Option JVal)
    (o : Oracle) (r0 : Resp) (enc : Nat → Nat → Option Nat)
    (bmax f pf : Nat) (isFw : Bool)
    (hL : 0 < L) (hn : n < 0) (hv : parseLenField v = n)
    (h0 : o 0 = .ok r0) (hr : r0.length = v) :
    parseLenField (some (.jfloat n)) = n ∧
    parseLenField (some (.jint n)) = n ∧
    negotiatedChunkLen v = n ∧
    loadBinary o enc true bmax L isFw (f + 1) pf =
      ([Ev.txInitiate], RunRes.panicked) := by
  have hcl : negotiatedChunkLen v = n := by
    rw [negotiatedChunkLen, hv]
    simp only [if_neg (by omega : ¬ n = 0)]
  have hgt : (L : Int) > n := by omega
  have hlt : (if (L : Int) > n then n else (L : Int)) < 0 := by
    rw [if_pos hgt]; exact hn
  have hloop : chunkLoopAux o enc bmax n pf (f + 1) 0 L 1 =
      ([], 1, RunRes.panicked) := by
    simp only [chunkLoopAux, if_neg (by omega : ¬ L = 0), if_pos hlt]
  refine ⟨rfl, rfl, hcl, ?_⟩
  simp [loadBinary, h0, hr, hcl, hloop]

/-- Witness for C10: a 10-byte image against a device whose initiate
response carries the numeric string "-5" panics in the first chunk
iteration. -/
theorem negative_chunklen_panics_witness :
    loadBinary oracleLenNegStr encStub true 0 10 true 3 0 =
      ([Ev.txInitiate], RunRes.panicked) :=
  (negative_chunklen_panics 10 (-5) (some (.jstr "-5")) oracleLenNegStr
    { length := some (.jstr "-5") } encStub 0 2 0 true (by decide) (by decide)
    (by decide) rfl rfl).2.2.2

end DfuSpec
